import Mathlib

/-
Shallow embedding of the task-scheduler engine (src/task.py and src/scheduler.py).

Python integers are modelled as Int.  Python objects have identity: Task objects
are kept in an arena `store : List Task`, and a `TaskId` (an index into the
arena) stands for an object reference, so that the dict `tasks`, the list
`ready_queue` and `running_task` all alias the same mutable objects, exactly as
in the source.  The terminal drawing, the wall-clock sleep and the worker
thread are I/O and are not part of the state; everything the loop body reads or
writes is modelled.
-/

namespace TaskScheduler

/-- Task from src/task.py.  The source field `instance` is a Lean keyword and is
named `inst` here; all other field names are the source names. -/
structure Task where
  name : String
  period : Int
  execution_time : Int
  deadline : Int
  remaining_time : Int
  next_release : Int
  inst : Int
  release_time : Int
  deadline_misses : List Int
deriving Repr, DecidableEq

/-- Task.__init__ .  The source computes `deadline or period`, so a `None`
deadline and a `0` deadline both fall back to `period` (Python truthiness). -/
def mkTask (name : String) (period execution_time : Int) (deadline : Option Int) : Task :=
  { name := name
    period := period
    execution_time := execution_time
    deadline :=
      match deadline with
      | none => period
      | some d => if d = 0 then period else d
    remaining_time := 0
    next_release := 0
    inst := 0
    release_time := 0
    deadline_misses := [] }

/-- Task.release from src/task.py: flag an overrun miss for the superseded
instance, then start the new instance. -/
def Task.release (t : Task) (current_tick : Int) : Task :=
  let t1 :=
    if t.remaining_time > 0 then
      { t with deadline_misses := t.deadline_misses ++ [t.inst] }
    else t
  { t1 with
      release_time := current_tick
      remaining_time := t.execution_time
      next_release := current_tick + t.period
      inst := t.inst + 1 }

/-- Task.__repr__ : `name[instance]`. -/
def taskRepr (t : Task) : String :=
  t.name ++ "[" ++ toString t.inst ++ "]"

/-- Object reference: index into the arena of Task objects. -/
abbrev TaskId := Nat

/-- Scheduler state from src/scheduler.py (the fields of Scheduler.__init__).
`store` is the object arena backing the references; `tasks` is the
insertion-ordered dict name -> reference; gantt rows are the recorded symbol
lists.  `task_lock` and `scheduler_thread` carry no engine state. -/
structure Sched where
  algorithm : String
  store : List Task
  tasks : List (String × TaskId)
  ready_queue : List TaskId
  running_task : Option TaskId
  current_tick : Int
  is_running : Bool
  execution_history : List String
  gantt_chart_data : List (String × List Char)
  task_display_order : List String
  event_log : List String
deriving Repr, DecidableEq

/-- Value returned when an arena index is out of range; unreachable from the
operations below, which only create in-range references. -/
def dummyTask : Task :=
  { name := ""
    period := 0
    execution_time := 0
    deadline := 0
    remaining_time := 0
    next_release := 0
    inst := 0
    release_time := 0
    deadline_misses := [] }

/-- Dereference a task object. -/
def getT (s : Sched) (i : TaskId) : Task :=
  s.store.getD i dummyTask

/-- Mutate a task object in place (all aliases observe the update). -/
def setT (s : Sched) (i : TaskId) (t : Task) : Sched :=
  { s with store := s.store.set i t }

/-- self.tasks.values() in dict insertion order. -/
def taskIds (s : Sched) : List TaskId :=
  s.tasks.map Prod.snd

/-- Dict lookup by name. -/
def lookupName : List (String × TaskId) → String → Option TaskId
  | [], _ => none
  | (m, j) :: rest, n => if m = n then some j else lookupName rest n

/-- Dict assignment `tasks[name] = task`: overwrite in place if the key exists
(insertion position kept), append otherwise. -/
def dictSet : List (String × TaskId) → String → TaskId → List (String × TaskId)
  | [], n, i => [(n, i)]
  | (m, j) :: rest, n, i =>
    if m = n then (n, i) :: rest else (m, j) :: dictSet rest n i

/-- Key membership test on gantt_chart_data. -/
def ganttHas : List (String × List Char) → String → Bool
  | [], _ => false
  | (m, _) :: rest, n => if m = n then true else ganttHas rest n

/-- `gantt_chart_data[name].append(char)`. -/
def ganttAppend : List (String × List Char) → String → Char → List (String × List Char)
  | [], _, _ => []
  | (m, row) :: rest, n, c =>
    if m = n then (m, row ++ [c]) :: rest else (m, row) :: ganttAppend rest n c

/-- event_log is a deque with maxlen 10: append, evicting from the left. -/
def pushLog (log : List String) (msg : String) : List String :=
  let l := log ++ [msg]
  l.drop (l.length - 10)

/-- list.remove: delete the first occurrence. -/
def removeFirst : List TaskId → TaskId → List TaskId
  | [], _ => []
  | x :: xs, a => if x = a then xs else x :: removeFirst xs a

/-- Left scan of Python `min(..., key=...)`: the current best is replaced only
when a strictly smaller key appears, so ties keep the earlier element. -/
def pyMinAux (key : TaskId → Int) (best : TaskId) : List TaskId → TaskId
  | [] => best
  | y :: ys => pyMinAux key (if key y < key best then y else best) ys

/-- Python `min(lst, key=...)`, `none` on the empty list. -/
def pyMin (key : TaskId → Int) : List TaskId → Option TaskId
  | [] => none
  | x :: xs => some (pyMinAux key x xs)

/-- Scheduler.__init__ : the algorithm string is stored without validation. -/
def initScheduler (algorithm : String) : Sched :=
  { algorithm := algorithm
    store := []
    tasks := []
    ready_queue := []
    running_task := none
    current_tick := 0
    is_running := false
    execution_history := []
    gantt_chart_data := []
    task_display_order := []
    event_log := [] }

/-- Scheduler.add_task: allocate the (caller-constructed) object in the arena
and store it in the dict; first-time names also get a display row, a gantt row
padded with blanks for past ticks, and a log entry.  An existing name is
overwritten in place with none of those side effects. -/
def add_task (s : Sched) (t : Task) : Sched :=
  if lookupName s.tasks t.name = none then
    let i := s.store.length
    let s1 := { s with store := s.store ++ [t], tasks := dictSet s.tasks t.name i }
    let s2 :=
      if ganttHas s1.gantt_chart_data t.name = false then
        { s1 with
            task_display_order := s1.task_display_order ++ [t.name]
            gantt_chart_data :=
              s1.gantt_chart_data ++ [(t.name, List.replicate s1.current_tick.toNat ' ')] }
      else s1
    { s2 with
        event_log := pushLog s2.event_log
          ("Task " ++ t.name ++ " added (P=" ++ toString t.period ++
            ", E=" ++ toString t.execution_time ++ ")") }
  else
    { s with store := s.store ++ [t], tasks := dictSet s.tasks t.name s.store.length }

/-- Scheduler.start: no-op when already running, else raise the flag and reset
the tick counter.  Spawning the loop thread is I/O. -/
def Sched.start (s : Sched) : Sched :=
  if s.is_running then s
  else { s with is_running := true, current_tick := 0 }

/-- Scheduler.stop: lower the flag (the join and the print are I/O). -/
def Sched.stop (s : Sched) : Sched :=
  { s with is_running := false }

/-- One iteration of the `for task in self.tasks.values()` body of
Scheduler._release_tasks. -/
def releaseStep (s : Sched) (i : TaskId) : Sched :=
  let t := getT s i
  if t.next_release ≤ s.current_tick ∧ t.remaining_time = 0 then
    let s1 := setT s i (Task.release t s.current_tick)
    let s2 :=
      if i ∈ s1.ready_queue then s1
      else { s1 with ready_queue := s1.ready_queue ++ [i] }
    { s2 with
        event_log := pushLog s2.event_log
          (taskRepr (getT s2 i) ++ " released at tick " ++ toString s2.current_tick) }
  else s

/-- Scheduler._release_tasks. -/
def releasePass (s : Sched) : Sched :=
  (taskIds s).foldl releaseStep s

/-- One iteration of the loop body of Scheduler._check_deadlines. -/
def checkStep (s : Sched) (i : TaskId) : Sched :=
  let t := getT s i
  if t.remaining_time > 0 ∧ t.inst > 0 then
    let absolute_deadline := t.release_time + t.deadline
    if absolute_deadline < s.current_tick then
      if t.inst ∈ t.deadline_misses then s
      else
        let s1 := setT s i { t with deadline_misses := t.deadline_misses ++ [t.inst] }
        { s1 with
            event_log := pushLog s1.event_log
              (t.name ++ "[" ++ toString t.inst ++ "] MISSED DEADLINE at tick " ++
                toString absolute_deadline) }
    else s
  else s

/-- Scheduler._check_deadlines. -/
def checkDeadlines (s : Sched) : Sched :=
  (taskIds s).foldl checkStep s

/-- RM priority key: `lambda t: t.period`. -/
def rmKey (s : Sched) (i : TaskId) : Int :=
  (getT s i).period

/-- EDF priority key: `lambda t: t.release_time + t.deadline`. -/
def edfKey (s : Sched) (i : TaskId) : Int :=
  (getT s i).release_time + (getT s i).deadline

/-- Scheduler._select_task.  The source error message quotes the two algorithm
names; the quotes are omitted here. -/
def selectTask (s : Sched) : Except String (Option TaskId) :=
  if s.ready_queue.isEmpty then Except.ok none
  else if s.algorithm = "RM" then Except.ok (pyMin (rmKey s) s.ready_queue)
  else if s.algorithm = "EDF" then Except.ok (pyMin (edfKey s) s.ready_queue)
  else Except.error "Invalid algorithm: use RM or EDF"

/-- Preemption check at the top of Scheduler._execute_task: with a running task
and a non-empty ready queue, hand the CPU to the queue's best task when its key
is strictly smaller than the running task's, putting the running task back in
the queue if it is not already there. -/
def preemptPhase (s : Sched) : Sched :=
  if s.algorithm = "RM" then
    match s.running_task with
    | none => s
    | some r =>
      match pyMin (rmKey s) s.ready_queue with
      | none => s
      | some h =>
        if rmKey s h < rmKey s r then
          let s1 :=
            if r ∈ s.ready_queue then s
            else { s with ready_queue := s.ready_queue ++ [r] }
          { s1 with running_task := some h }
        else s
  else if s.algorithm = "EDF" then
    match s.running_task with
    | none => s
    | some r =>
      match pyMin (edfKey s) s.ready_queue with
      | none => s
      | some h =>
        if edfKey s h < edfKey s r then
          let s1 :=
            if r ∈ s.ready_queue then s
            else { s with ready_queue := s.ready_queue ++ [r] }
          { s1 with running_task := some h }
        else s
  else s

/-- `if not self.running_task: self.running_task = self._select_task()`. -/
def selectPhase (s : Sched) : Except String Sched :=
  match s.running_task with
  | some _ => Except.ok s
  | none =>
    match selectTask s with
    | Except.ok r => Except.ok { s with running_task := r }
    | Except.error e => Except.error e

/-- Tail of Scheduler._execute_task: run the selected task for one tick (or
record the tick as idle) and append to execution_history; returns the new state
together with `current_task_name`. -/
def runPhase (s : Sched) : Sched × String :=
  match s.running_task with
  | none =>
    ({ s with execution_history := s.execution_history ++ ["idle"] }, "idle")
  | some r =>
    let t := getT s r
    let current_task_name := t.name
    let s1 := setT s r { t with remaining_time := t.remaining_time - 1 }
    let s2 :=
      if (getT s1 r).remaining_time ≤ 0 then
        let s' :=
          if r ∈ s1.ready_queue then { s1 with ready_queue := removeFirst s1.ready_queue r }
          else s1
        { s' with running_task := none }
      else s1
    ({ s2 with execution_history := s2.execution_history ++ [current_task_name] },
      current_task_name)

/-- Scheduler._execute_task. -/
def executeTask (s : Sched) : Except String (Sched × String) :=
  match selectPhase (preemptPhase s) with
  | Except.error e => Except.error e
  | Except.ok s1 => Except.ok (runPhase s1)

/-- Symbol chosen for one task in the data-update loop of
Scheduler._update_and_draw_gantt. -/
def ganttChar (s : Sched) (current_task_name : String) (name : String) (i : TaskId) : Char :=
  let t := getT s i
  let c :=
    if name = current_task_name then '█'
    else if i ∈ s.ready_queue then '░'
    else ' '
  let c := if s.current_tick = t.next_release then 'R' else c
  if t.inst > 0 ∧ s.current_tick = t.release_time + t.deadline then 'D' else c

/-- Data-update loop of Scheduler._update_and_draw_gantt (the terminal redraw
is I/O). -/
def ganttUpdate (s : Sched) (current_task_name : String) : Sched :=
  s.tasks.foldl
    (fun acc e =>
      { acc with
          gantt_chart_data :=
            ganttAppend acc.gantt_chart_data e.1 (ganttChar acc current_task_name e.1 e.2) })
    s

/-- One iteration of the while-loop body of Scheduler._scheduler_loop, with the
tick advance that follows the critical section. -/
def tickStep (s : Sched) : Except String Sched :=
  match executeTask (checkDeadlines (releasePass s)) with
  | Except.error e => Except.error e
  | Except.ok (s1, current_task_name) =>
    let s2 := ganttUpdate s1 current_task_name
    Except.ok { s2 with current_tick := s2.current_tick + 1 }

/-- n iterations of the scheduler loop body. -/
def runTicks : Nat → Sched → Except String Sched
  | 0, s => Except.ok s
  | n + 1, s =>
    match tickStep s with
    | Except.ok s1 => runTicks n s1
    | Except.error e => Except.error e

/-- State after n loop iterations; the input state is returned if the loop
raised (the accompanying theorems assert separately that it did not). -/
def afterTicks (n : Nat) (s : Sched) : Sched :=
  match runTicks n s with
  | Except.ok s1 => s1
  | Except.error _ => s

/-- State seen by the selection/preemption pass of a tick: after the release
pass and the deadline-check pass of that tick. -/
def preExecState (s : Sched) : Sched :=
  checkDeadlines (releasePass s)

/-- Whether a run of (part of) the loop completed without raising. -/
def okRun {α : Type} (e : Except String α) : Bool :=
  match e with
  | Except.ok _ => true
  | Except.error _ => false

/-! ### List helpers -/

theorem getD_set_ne {α : Type} (l : List α) (d a : α) (i j : Nat) (h : i ≠ j) :
    (l.set j a).getD i d = l.getD i d := by
  induction l generalizing i j with
  | nil => rfl
  | cons x xs ih =>
    cases j with
    | zero =>
      cases i with
      | zero => exact absurd rfl h
      | succ i => rfl
    | succ j =>
      cases i with
      | zero => rfl
      | succ i => exact ih i j (fun e => h (by rw [e]))

theorem getD_set_self {α : Type} (l : List α) (d a : α) (j : Nat) (h : j < l.length) :
    (l.set j a).getD j d = a := by
  induction l generalizing j with
  | nil => cases h
  | cons x xs ih =>
    cases j with
    | zero => rfl
    | succ j => exact ih j (Nat.lt_of_succ_lt_succ h)

theorem getD_append_left {α : Type} (l l2 : List α) (d : α) (i : Nat) (h : i < l.length) :
    (l ++ l2).getD i d = l.getD i d := by
  induction l generalizing i with
  | nil => cases h
  | cons x xs ih =>
    cases i with
    | zero => rfl
    | succ i => exact ih i (Nat.lt_of_succ_lt_succ h)

theorem not_mem_removeFirst (l : List TaskId) (a : TaskId) (h : l.Nodup) :
    a ∉ removeFirst l a := by
  induction l with
  | nil => simp [removeFirst]
  | cons x xs ih =>
    by_cases hx : x = a
    · simp only [removeFirst, if_pos hx]
      subst hx
      exact (List.nodup_cons.1 h).1
    · simp only [removeFirst, if_neg hx]
      intro hmem
      rcases List.mem_cons.1 hmem with rfl | hmem'
      · exact hx rfl
      · exact ih (List.nodup_cons.1 h).2 hmem'

theorem nodup_snoc {α : Type} (l : List α) (a : α) (h : l.Nodup) (ha : a ∉ l) :
    (l ++ [a]).Nodup := by
  simp [List.nodup_append, h, ha]

/-! ### Python min lemmas: the scan keeps the current best on ties, so the
result is the first element attaining the minimal key. -/

theorem pyMinAux_cons_pos (key : TaskId → Int) (b y : TaskId) (ys : List TaskId)
    (h : key y < key b) : pyMinAux key b (y :: ys) = pyMinAux key y ys := by
  show pyMinAux key (if key y < key b then y else b) ys = pyMinAux key y ys
  rw [if_pos h]

theorem pyMinAux_cons_neg (key : TaskId → Int) (b y : TaskId) (ys : List TaskId)
    (h : ¬ key y < key b) : pyMinAux key b (y :: ys) = pyMinAux key b ys := by
  show pyMinAux key (if key y < key b then y else b) ys = pyMinAux key b ys
  rw [if_neg h]

theorem pyMinAux_le_best (key : TaskId → Int) (l : List TaskId) (b : TaskId) :
    key (pyMinAux key b l) ≤ key b := by
  induction l generalizing b with
  | nil => exact le_refl _
  | cons y ys ih =>
    by_cases h : key y < key b
    · rw [pyMinAux_cons_pos key b y ys h]
      exact le_trans (ih y) (le_of_lt h)
    · rw [pyMinAux_cons_neg key b y ys h]
      exact ih b

theorem pyMinAux_mem (key : TaskId → Int) (l : List TaskId) (b : TaskId) :
    pyMinAux key b l = b ∨ pyMinAux key b l ∈ l := by
  induction l generalizing b with
  | nil => exact Or.inl rfl
  | cons y ys ih =>
    by_cases h : key y < key b
    · rw [pyMinAux_cons_pos key b y ys h]
      rcases ih y with h1 | h1
      · refine Or.inr ?_
        rw [h1]
        exact List.mem_cons_self y ys
      · exact Or.inr (List.mem_cons_of_mem _ h1)
    · rw [pyMinAux_cons_neg key b y ys h]
      rcases ih b with h1 | h1
      · exact Or.inl h1
      · exact Or.inr (List.mem_cons_of_mem _ h1)

theorem pyMinAux_le (key : TaskId → Int) (l : List TaskId) (b : TaskId) :
    ∀ j ∈ l, key (pyMinAux key b l) ≤ key j := by
  induction l generalizing b with
  | nil => intro j hj; cases hj
  | cons y ys ih =>
    intro j hj
    rcases List.mem_cons.1 hj with rfl | hj'
    · by_cases h : key j < key b
      · rw [pyMinAux_cons_pos key b j ys h]
        exact pyMinAux_le_best key ys j
      · rw [pyMinAux_cons_neg key b j ys h]
        exact le_trans (pyMinAux_le_best key ys b) (le_of_not_lt h)
    · by_cases h : key y < key b
      · rw [pyMinAux_cons_pos key b y ys h]
        exact ih y j hj'
      · rw [pyMinAux_cons_neg key b y ys h]
        exact ih b j hj'

theorem pyMinAux_decomp (key : TaskId → Int) (l : List TaskId) (b : TaskId) :
    ∃ l1 l2, b :: l = l1 ++ pyMinAux key b l :: l2 ∧
      (∀ j ∈ l1, key (pyMinAux key b l) < key j) ∧
      (∀ j ∈ l2, key (pyMinAux key b l) ≤ key j) := by
  induction l generalizing b with
  | nil =>
    refine ⟨[], [], rfl, ?_, ?_⟩ <;> (intro j hj; cases hj)
  | cons y ys ih =>
    by_cases h : key y < key b
    · rw [pyMinAux_cons_pos key b y ys h]
      obtain ⟨l1, l2, heq, h1, h2⟩ := ih y
      refine ⟨b :: l1, l2, ?_, ?_, h2⟩
      · rw [List.cons_append, ← heq]
      · intro j hj
        rcases List.mem_cons.1 hj with rfl | hj'
        · exact lt_of_le_of_lt (pyMinAux_le_best key ys y) h
        · exact h1 j hj'
    · rw [pyMinAux_cons_neg key b y ys h]
      obtain ⟨l1, l2, heq, h1, h2⟩ := ih b
      cases l1 with
      | nil =>
        simp only [List.nil_append] at heq
        have hb : b = pyMinAux key b ys := (List.cons_eq_cons.1 heq).1
        have hys : ys = l2 := (List.cons_eq_cons.1 heq).2
        refine ⟨[], y :: ys, ?_, ?_, ?_⟩
        · rw [List.nil_append, ← hb]
        · intro j hj; cases hj
        · intro j hj
          rcases List.mem_cons.1 hj with rfl | hj'
          · rw [← hb]; exact le_of_not_lt h
          · rw [hys] at hj'
            exact h2 j hj'
      | cons a l1' =>
        rw [List.cons_append] at heq
        have ha : b = a := (List.cons_eq_cons.1 heq).1
        have hys : ys = l1' ++ pyMinAux key b ys :: l2 := (List.cons_eq_cons.1 heq).2
        have hrb : key (pyMinAux key b ys) < key b := by
          have h0 := h1 a (List.mem_cons_self a l1')
          rw [← ha] at h0
          exact h0
        refine ⟨b :: y :: l1', l2, ?_, ?_, h2⟩
        · rw [List.cons_append, List.cons_append, ← hys]
        · intro j hj
          rcases List.mem_cons.1 hj with rfl | hj'
          · exact hrb
          · rcases List.mem_cons.1 hj' with rfl | hj''
            · exact lt_of_lt_of_le hrb (le_of_not_lt h)
            · exact h1 j (List.mem_cons_of_mem _ hj'')

theorem pyMin_mem (key : TaskId → Int) (l : List TaskId) (i : TaskId)
    (h : pyMin key l = some i) : i ∈ l := by
  cases l with
  | nil => cases h
  | cons x xs =>
    have hi : pyMinAux key x xs = i := Option.some_inj.1 h
    rcases pyMinAux_mem key xs x with h1 | h1
    · rw [← hi, h1]; exact List.mem_cons_self x xs
    · rw [← hi]; exact List.mem_cons_of_mem _ h1

theorem pyMin_le (key : TaskId → Int) (l : List TaskId) (i : TaskId)
    (h : pyMin key l = some i) : ∀ j ∈ l, key i ≤ key j := by
  cases l with
  | nil => cases h
  | cons x xs =>
    have hi : pyMinAux key x xs = i := Option.some_inj.1 h
    intro j hj
    rcases List.mem_cons.1 hj with rfl | hj'
    · rw [← hi]; exact pyMinAux_le_best key xs j
    · rw [← hi]; exact pyMinAux_le key xs x j hj'

theorem pyMin_decomp (key : TaskId → Int) (l : List TaskId) (i : TaskId)
    (h : pyMin key l = some i) :
    ∃ l1 l2, l = l1 ++ i :: l2 ∧ (∀ j ∈ l1, key i < key j) ∧ (∀ j ∈ l2, key i ≤ key j) := by
  cases l with
  | nil => cases h
  | cons x xs =>
    have hi : pyMinAux key x xs = i := Option.some_inj.1 h
    obtain ⟨l1, l2, heq, h1, h2⟩ := pyMinAux_decomp key xs x
    rw [hi] at heq h1 h2
    exact ⟨l1, l2, heq, h1, h2⟩

theorem pyMin_isSome (key : TaskId → Int) (l : List TaskId) (h : l ≠ []) :
    ∃ i, pyMin key l = some i := by
  cases l with
  | nil => exact absurd rfl h
  | cons x xs => exact ⟨pyMinAux key x xs, rfl⟩

theorem pyMinAux_congr (k1 k2 : TaskId → Int) (l : List TaskId) (b : TaskId)
    (hb : k1 b = k2 b) (h : ∀ x ∈ l, k1 x = k2 x) :
    pyMinAux k1 b l = pyMinAux k2 b l := by
  induction l generalizing b with
  | nil => rfl
  | cons y ys ih =>
    show pyMinAux k1 (if k1 y < k1 b then y else b) ys =
      pyMinAux k2 (if k2 y < k2 b then y else b) ys
    rw [h y (List.mem_cons_self y ys), hb]
    split
    · exact ih y (h y (List.mem_cons_self y ys)) (fun x hx => h x (List.mem_cons_of_mem _ hx))
    · exact ih b hb (fun x hx => h x (List.mem_cons_of_mem _ hx))

theorem pyMin_congr (k1 k2 : TaskId → Int) (l : List TaskId)
    (h : ∀ x ∈ l, k1 x = k2 x) : pyMin k1 l = pyMin k2 l := by
  cases l with
  | nil => rfl
  | cons x xs =>
    show some (pyMinAux k1 x xs) = some (pyMinAux k2 x xs)
    rw [pyMinAux_congr k1 k2 xs x (h x (List.mem_cons_self x xs))
      (fun y hy => h y (List.mem_cons_of_mem _ hy))]

theorem set_eq_of_le {α : Type} (l : List α) (a : α) (j : Nat) (h : l.length ≤ j) :
    l.set j a = l := by
  induction l generalizing j with
  | nil => rfl
  | cons x xs ih =>
    cases j with
    | zero => cases h
    | succ j =>
      show x :: xs.set j a = x :: xs
      rw [ih j (Nat.le_of_succ_le_succ h)]

/-- Task.release started from a finished instance records no miss. -/
theorem release_of_rem_zero (t : Task) (tick : Int) (h : ¬ t.remaining_time > 0) :
    Task.release t tick =
      { t with
          release_time := tick
          remaining_time := t.execution_time
          next_release := tick + t.period
          inst := t.inst + 1 } := by
  simp only [Task.release, if_neg h]

/-! ### Frame and step lemmas for the release pass -/

/-- Guard of the release pass for one task, evaluated at state s. -/
def relGuard (s : Sched) (i : TaskId) : Prop :=
  (getT s i).next_release ≤ s.current_tick ∧ (getT s i).remaining_time = 0

instance (s : Sched) (i : TaskId) : Decidable (relGuard s i) := by
  unfold relGuard; infer_instance

theorem releaseStep_tasks (s : Sched) (j : TaskId) : (releaseStep s j).tasks = s.tasks := by
  simp only [releaseStep]
  split
  · split <;> rfl
  · rfl

theorem releaseStep_tick (s : Sched) (j : TaskId) :
    (releaseStep s j).current_tick = s.current_tick := by
  simp only [releaseStep]
  split
  · split <;> rfl
  · rfl

theorem releaseStep_algorithm (s : Sched) (j : TaskId) :
    (releaseStep s j).algorithm = s.algorithm := by
  simp only [releaseStep]
  split
  · split <;> rfl
  · rfl

theorem releaseStep_running (s : Sched) (j : TaskId) :
    (releaseStep s j).running_task = s.running_task := by
  simp only [releaseStep]
  split
  · split <;> rfl
  · rfl

theorem releaseStep_history (s : Sched) (j : TaskId) :
    (releaseStep s j).execution_history = s.execution_history := by
  simp only [releaseStep]
  split
  · split <;> rfl
  · rfl

theorem releaseStep_store_length (s : Sched) (j : TaskId) :
    (releaseStep s j).store.length = s.store.length := by
  simp only [releaseStep]
  split
  · split <;> (show (s.store.set j _).length = s.store.length ; exact List.length_set s.store j _)
  · rfl

theorem releaseStep_getT_ne (s : Sched) (i j : TaskId) (h : i ≠ j) :
    getT (releaseStep s j) i = getT s i := by
  simp only [releaseStep]
  split
  · split <;> (show (setT s j _).store.getD i dummyTask = _ ; exact getD_set_ne _ _ _ _ _ h)
  · rfl

theorem releaseStep_queue_sub (s : Sched) (j x : TaskId) (h : x ∈ s.ready_queue) :
    x ∈ (releaseStep s j).ready_queue := by
  simp only [releaseStep]
  split
  · split
    · exact h
    · exact List.mem_append_left _ h
  · exact h

theorem releaseStep_queue_cases (s : Sched) (j : TaskId) :
    (releaseStep s j).ready_queue = s.ready_queue ∨
      (releaseStep s j).ready_queue = s.ready_queue ++ [j] := by
  simp only [releaseStep]
  split
  · split
    · exact Or.inl rfl
    · exact Or.inr rfl
  · exact Or.inl rfl

theorem releaseStep_self (s : Sched) (j : TaskId) (hlen : j < s.store.length) :
    getT (releaseStep s j) j =
      if relGuard s j then Task.release (getT s j) s.current_tick else getT s j := by
  by_cases hg : relGuard s j
  · rw [if_pos hg]
    simp only [releaseStep, if_pos (show (getT s j).next_release ≤ s.current_tick ∧
      (getT s j).remaining_time = 0 from hg)]
    split <;>
      (show (setT s j _).store.getD j dummyTask = _ ; exact getD_set_self _ _ _ _ hlen)
  · rw [if_neg hg]
    simp only [releaseStep, if_neg (show ¬ ((getT s j).next_release ≤ s.current_tick ∧
      (getT s j).remaining_time = 0) from hg)]

theorem releaseStep_self_queue (s : Sched) (j : TaskId) (hg : relGuard s j) :
    j ∈ (releaseStep s j).ready_queue := by
  simp only [releaseStep, if_pos (show (getT s j).next_release ≤ s.current_tick ∧
    (getT s j).remaining_time = 0 from hg)]
  split
  · next h => exact h
  · exact List.mem_append_right _ (List.mem_cons_self j [])

theorem releaseStep_misses (s : Sched) (j i : TaskId) :
    (getT (releaseStep s j) i).deadline_misses = (getT s i).deadline_misses := by
  by_cases hij : i = j
  · subst hij
    by_cases hlen : i < s.store.length
    · rw [releaseStep_self s i hlen]
      split
      · next hg =>
        rw [release_of_rem_zero (getT s i) s.current_tick (by rw [hg.2]; exact lt_irrefl 0)]
      · rfl
    · have hset : ∀ t : Task, (setT s i t).store = s.store := by
        intro t
        exact set_eq_of_le s.store t i (Nat.le_of_not_lt hlen)
      simp only [releaseStep]
      split
      · split <;>
          (show ((setT s i _).store.getD i dummyTask).deadline_misses = _ ; rw [hset] ; rfl)
      · rfl
  · rw [releaseStep_getT_ne s i j hij]

/-! ### Fold lemmas for the release pass -/

theorem relFold_tasks (ids : List TaskId) (s : Sched) :
    (ids.foldl releaseStep s).tasks = s.tasks := by
  induction ids generalizing s with
  | nil => rfl
  | cons j rest ih => rw [List.foldl_cons, ih, releaseStep_tasks]

theorem relFold_tick (ids : List TaskId) (s : Sched) :
    (ids.foldl releaseStep s).current_tick = s.current_tick := by
  induction ids generalizing s with
  | nil => rfl
  | cons j rest ih => rw [List.foldl_cons, ih, releaseStep_tick]

theorem relFold_algorithm (ids : List TaskId) (s : Sched) :
    (ids.foldl releaseStep s).algorithm = s.algorithm := by
  induction ids generalizing s with
  | nil => rfl
  | cons j rest ih => rw [List.foldl_cons, ih, releaseStep_algorithm]

theorem relFold_running (ids : List TaskId) (s : Sched) :
    (ids.foldl releaseStep s).running_task = s.running_task := by
  induction ids generalizing s with
  | nil => rfl
  | cons j rest ih => rw [List.foldl_cons, ih, releaseStep_running]

theorem relFold_history (ids : List TaskId) (s : Sched) :
    (ids.foldl releaseStep s).execution_history = s.execution_history := by
  induction ids generalizing s with
  | nil => rfl
  | cons j rest ih => rw [List.foldl_cons, ih, releaseStep_history]

theorem relFold_store_length (ids : List TaskId) (s : Sched) :
    (ids.foldl releaseStep s).store.length = s.store.length := by
  induction ids generalizing s with
  | nil => rfl
  | cons j rest ih => rw [List.foldl_cons, ih, releaseStep_store_length]

theorem relFold_getT_not_mem (ids : List TaskId) (s : Sched) (i : TaskId) (h : i ∉ ids) :
    getT (ids.foldl releaseStep s) i = getT s i := by
  induction ids generalizing s with
  | nil => rfl
  | cons j rest ih =>
    rw [List.foldl_cons, ih _ (fun hm => h (List.mem_cons_of_mem _ hm)),
      releaseStep_getT_ne s i j (fun e => h (e ▸ List.mem_cons_self j rest))]

theorem relFold_queue_sub (ids : List TaskId) (s : Sched) (x : TaskId)
    (h : x ∈ s.ready_queue) : x ∈ (ids.foldl releaseStep s).ready_queue := by
  induction ids generalizing s with
  | nil => exact h
  | cons j rest ih =>
    rw [List.foldl_cons]
    exact ih _ (releaseStep_queue_sub s j x h)

theorem relFold_misses (ids : List TaskId) (s : Sched) (i : TaskId) :
    (getT (ids.foldl releaseStep s) i).deadline_misses = (getT s i).deadline_misses := by
  induction ids generalizing s with
  | nil => rfl
  | cons j rest ih => rw [List.foldl_cons, ih, releaseStep_misses]

theorem relFold_spec (ids : List TaskId) (s : Sched) (i : TaskId)
    (hnd : ids.Nodup) (hi : i ∈ ids) (hlen : i < s.store.length) :
    getT (ids.foldl releaseStep s) i =
        (if relGuard s i then Task.release (getT s i) s.current_tick else getT s i) ∧
      (relGuard s i → i ∈ (ids.foldl releaseStep s).ready_queue) := by
  induction ids generalizing s with
  | nil => cases hi
  | cons j rest ih =>
    rw [List.foldl_cons]
    by_cases hij : i = j
    · subst hij
      have hrest : i ∉ rest := (List.nodup_cons.1 hnd).1
      constructor
      · rw [relFold_getT_not_mem rest _ i hrest, releaseStep_self s i hlen]
      · intro hg
        exact relFold_queue_sub rest _ i (releaseStep_self_queue s i hg)
    · have hir : i ∈ rest := by
        rcases List.mem_cons.1 hi with h | h
        · exact absurd h hij
        · exact h
      have hguard : relGuard (releaseStep s j) i = relGuard s i := by
        unfold relGuard
        rw [releaseStep_getT_ne s i j hij, releaseStep_tick]
      have hlen' : i < (releaseStep s j).store.length := by
        rw [releaseStep_store_length]; exact hlen
      obtain ⟨h1, h2⟩ := ih (releaseStep s j) (List.nodup_cons.1 hnd).2 hir hlen'
      constructor
      · by_cases hg : relGuard s i
        · have hg' : relGuard (releaseStep s j) i := by rw [hguard]; exact hg
          rw [h1, if_pos hg', if_pos hg, releaseStep_getT_ne s i j hij, releaseStep_tick]
        · have hg' : ¬ relGuard (releaseStep s j) i := by rw [hguard]; exact hg
          rw [h1, if_neg hg', if_neg hg, releaseStep_getT_ne s i j hij]
      · intro hg
        apply h2
        rw [hguard]
        exact hg

/-! ### Frame and step lemmas for the deadline-check pass -/

/-- Condition under which the deadline-check pass flags task i at state s. -/
def chkGuard (s : Sched) (i : TaskId) : Prop :=
  (getT s i).remaining_time > 0 ∧ (getT s i).inst > 0 ∧
    (getT s i).release_time + (getT s i).deadline < s.current_tick ∧
    (getT s i).inst ∉ (getT s i).deadline_misses

instance (s : Sched) (i : TaskId) : Decidable (chkGuard s i) := by
  unfold chkGuard; infer_instance

theorem checkStep_tasks (s : Sched) (j : TaskId) : (checkStep s j).tasks = s.tasks := by
  simp only [checkStep]
  split
  · split
    · split <;> rfl
    · rfl
  · rfl

theorem checkStep_tick (s : Sched) (j : TaskId) :
    (checkStep s j).current_tick = s.current_tick := by
  simp only [checkStep]
  split
  · split
    · split <;> rfl
    · rfl
  · rfl

theorem checkStep_algorithm (s : Sched) (j : TaskId) :
    (checkStep s j).algorithm = s.algorithm := by
  simp only [checkStep]
  split
  · split
    · split <;> rfl
    · rfl
  · rfl

theorem checkStep_running (s : Sched) (j : TaskId) :
    (checkStep s j).running_task = s.running_task := by
  simp only [checkStep]
  split
  · split
    · split <;> rfl
    · rfl
  · rfl

theorem checkStep_queue (s : Sched) (j : TaskId) :
    (checkStep s j).ready_queue = s.ready_queue := by
  simp only [checkStep]
  split
  · split
    · split <;> rfl
    · rfl
  · rfl

theorem checkStep_history (s : Sched) (j : TaskId) :
    (checkStep s j).execution_history = s.execution_history := by
  simp only [checkStep]
  split
  · split
    · split <;> rfl
    · rfl
  · rfl

theorem checkStep_store_length (s : Sched) (j : TaskId) :
    (checkStep s j).store.length = s.store.length := by
  simp only [checkStep]
  split
  · split
    · split
      · rfl
      · show (s.store.set j _).length = s.store.length
        exact List.length_set s.store j _
    · rfl
  · rfl

theorem checkStep_getT_ne (s : Sched) (i j : TaskId) (h : i ≠ j) :
    getT (checkStep s j) i = getT s i := by
  simp only [checkStep]
  split
  · split
    · split
      · rfl
      · show (setT s j _).store.getD i dummyTask = _
        exact getD_set_ne _ _ _ _ _ h
    · rfl
  · rfl

theorem checkStep_self (s : Sched) (j : TaskId) :
    getT (checkStep s j) j =
      if chkGuard s j then
        { getT s j with
            deadline_misses := (getT s j).deadline_misses ++ [(getT s j).inst] }
      else getT s j := by
  by_cases hlen : j < s.store.length
  · by_cases hg : chkGuard s j
    · rw [if_pos hg]
      obtain ⟨h1, h2, h3, h4⟩ := hg
      simp only [checkStep, if_pos (And.intro h1 h2), if_pos h3, if_neg h4]
      show (setT s j _).store.getD j dummyTask = _
      exact getD_set_self _ _ _ _ hlen
    · rw [if_neg hg]
      simp only [checkStep]
      split
      · next ha =>
        split
        · next hb =>
          split
          · rfl
          · next hc =>
            exact absurd ⟨ha.1, ha.2, hb, hc⟩ hg
        · rfl
      · rfl
  · have hdummy : getT s j = dummyTask := by
      show s.store.getD j dummyTask = dummyTask
      rw [List.getD_eq_getElem?_getD, List.getElem?_eq_none (Nat.le_of_not_lt hlen)]
      rfl
    have hng : ¬ chkGuard s j := by
      intro hg
      obtain ⟨h1, -, -, -⟩ := hg
      rw [hdummy] at h1
      exact lt_irrefl 0 h1
    rw [if_neg hng]
    simp only [checkStep]
    split
    · next ha =>
      rw [hdummy] at ha
      exact absurd ha.1 (lt_irrefl 0)
    · rfl

/-! ### Fold lemmas for the deadline-check pass -/

theorem chkFold_tasks (ids : List TaskId) (s : Sched) :
    (ids.foldl checkStep s).tasks = s.tasks := by
  induction ids generalizing s with
  | nil => rfl
  | cons j rest ih => rw [List.foldl_cons, ih, checkStep_tasks]

theorem chkFold_tick (ids : List TaskId) (s : Sched) :
    (ids.foldl checkStep s).current_tick = s.current_tick := by
  induction ids generalizing s with
  | nil => rfl
  | cons j rest ih => rw [List.foldl_cons, ih, checkStep_tick]

theorem chkFold_algorithm (ids : List TaskId) (s : Sched) :
    (ids.foldl checkStep s).algorithm = s.algorithm := by
  induction ids generalizing s with
  | nil => rfl
  | cons j rest ih => rw [List.foldl_cons, ih, checkStep_algorithm]

theorem chkFold_running (ids : List TaskId) (s : Sched) :
    (ids.foldl checkStep s).running_task = s.running_task := by
  induction ids generalizing s with
  | nil => rfl
  | cons j rest ih => rw [List.foldl_cons, ih, checkStep_running]

theorem chkFold_queue (ids : List TaskId) (s : Sched) :
    (ids.foldl checkStep s).ready_queue = s.ready_queue := by
  induction ids generalizing s with
  | nil => rfl
  | cons j rest ih => rw [List.foldl_cons, ih, checkStep_queue]

theorem chkFold_history (ids : List TaskId) (s : Sched) :
    (ids.foldl checkStep s).execution_history = s.execution_history := by
  induction ids generalizing s with
  | nil => rfl
  | cons j rest ih => rw [List.foldl_cons, ih, checkStep_history]

theorem chkFold_store_length (ids : List TaskId) (s : Sched) :
    (ids.foldl checkStep s).store.length = s.store.length := by
  induction ids generalizing s with
  | nil => rfl
  | cons j rest ih => rw [List.foldl_cons, ih, checkStep_store_length]

theorem chkFold_getT_not_mem (ids : List TaskId) (s : Sched) (i : TaskId) (h : i ∉ ids) :
    getT (ids.foldl checkStep s) i = getT s i := by
  induction ids generalizing s with
  | nil => rfl
  | cons j rest ih =>
    rw [List.foldl_cons, ih _ (fun hm => h (List.mem_cons_of_mem _ hm)),
      checkStep_getT_ne s i j (fun e => h (e ▸ List.mem_cons_self j rest))]

theorem chkFold_spec (ids : List TaskId) (s : Sched) (i : TaskId)
    (hnd : ids.Nodup) (hi : i ∈ ids) :
    getT (ids.foldl checkStep s) i =
      if chkGuard s i then
        { getT s i with
            deadline_misses := (getT s i).deadline_misses ++ [(getT s i).inst] }
      else getT s i := by
  induction ids generalizing s with
  | nil => cases hi
  | cons j rest ih =>
    rw [List.foldl_cons]
    by_cases hij : i = j
    · subst hij
      rw [chkFold_getT_not_mem rest _ i (List.nodup_cons.1 hnd).1, checkStep_self s i]
    · have hir : i ∈ rest := by
        rcases List.mem_cons.1 hi with h | h
        · exact absurd h hij
        · exact h
      have hguard : chkGuard (checkStep s j) i = chkGuard s i := by
        unfold chkGuard
        rw [checkStep_getT_ne s i j hij, checkStep_tick]
      have h1 := ih (checkStep s j) (List.nodup_cons.1 hnd).2 hir
      by_cases hg : chkGuard s i
      · have hg' : chkGuard (checkStep s j) i := by rw [hguard]; exact hg
        rw [h1, if_pos hg', if_pos hg, checkStep_getT_ne s i j hij]
      · have hg' : ¬ chkGuard (checkStep s j) i := by rw [hguard]; exact hg
        rw [h1, if_neg hg', if_neg hg, checkStep_getT_ne s i j hij]

/-! ### Lemmas for the selection/preemption pass -/

theorem preempt_cases (s : Sched) :
    preemptPhase s = s ∨
      ∃ r h, s.running_task = some r ∧ h ∈ s.ready_queue ∧
        preemptPhase s =
          { (if r ∈ s.ready_queue then s
             else { s with ready_queue := s.ready_queue ++ [r] }) with
              running_task := some h } := by
  simp only [preemptPhase]
  split
  · split
    · exact Or.inl rfl
    · next r heq =>
      split
      · exact Or.inl rfl
      · next h hmin =>
        split
        · exact Or.inr ⟨r, h, heq, pyMin_mem _ _ _ hmin, rfl⟩
        · exact Or.inl rfl
  · split
    · split
      · exact Or.inl rfl
      · next r heq =>
        split
        · exact Or.inl rfl
        · next h hmin =>
          split
          · exact Or.inr ⟨r, h, heq, pyMin_mem _ _ _ hmin, rfl⟩
          · exact Or.inl rfl
    · exact Or.inl rfl

theorem preempt_store (s : Sched) : (preemptPhase s).store = s.store := by
  rcases preempt_cases s with h | ⟨r, hh, _, _, h⟩
  · rw [h]
  · rw [h]; split <;> rfl

theorem preempt_getT (s : Sched) (i : TaskId) : getT (preemptPhase s) i = getT s i := by
  show (preemptPhase s).store.getD i dummyTask = _
  rw [preempt_store]
  rfl

theorem preempt_tasks (s : Sched) : (preemptPhase s).tasks = s.tasks := by
  rcases preempt_cases s with h | ⟨r, hh, _, _, h⟩
  · rw [h]
  · rw [h]; split <;> rfl

theorem preempt_tick (s : Sched) : (preemptPhase s).current_tick = s.current_tick := by
  rcases preempt_cases s with h | ⟨r, hh, _, _, h⟩
  · rw [h]
  · rw [h]; split <;> rfl

theorem preempt_algorithm (s : Sched) : (preemptPhase s).algorithm = s.algorithm := by
  rcases preempt_cases s with h | ⟨r, hh, _, _, h⟩
  · rw [h]
  · rw [h]; split <;> rfl

theorem preempt_history (s : Sched) :
    (preemptPhase s).execution_history = s.execution_history := by
  rcases preempt_cases s with h | ⟨r, hh, _, _, h⟩
  · rw [h]
  · rw [h]; split <;> rfl

theorem preempt_queue_sub (s : Sched) (x : TaskId) (hx : x ∈ s.ready_queue) :
    x ∈ (preemptPhase s).ready_queue := by
  rcases preempt_cases s with h | ⟨r, hh, _, _, h⟩
  · rw [h]; exact hx
  · rw [h]
    split
    · exact hx
    · exact List.mem_append_left _ hx

theorem preempt_queue_nodup (s : Sched) (hq : s.ready_queue.Nodup) :
    (preemptPhase s).ready_queue.Nodup := by
  rcases preempt_cases s with h | ⟨r, hh, _, _, h⟩
  · rw [h]; exact hq
  · rw [h]
    split
    · exact hq
    · next hnm => exact nodup_snoc _ _ hq hnm

theorem preempt_queue_bounds (s : Sched) (n : Nat)
    (hq : ∀ j ∈ s.ready_queue, j < n) (hr : ∀ r, s.running_task = some r → r < n) :
    ∀ j ∈ (preemptPhase s).ready_queue, j < n := by
  rcases preempt_cases s with h | ⟨r, hh, hrun, _, h⟩
  · rw [h]; exact hq
  · rw [h]
    split
    · exact hq
    · intro j hj
      rcases List.mem_append.1 hj with hj' | hj'
      · exact hq j hj'
      · rcases List.mem_singleton.1 hj' with rfl
        exact hr j hrun

theorem preempt_running_cases (s : Sched) :
    (preemptPhase s).running_task = s.running_task ∨
      ∃ h, (preemptPhase s).running_task = some h ∧ h ∈ s.ready_queue := by
  rcases preempt_cases s with h | ⟨r, hh, _, hmem, h⟩
  · rw [h]; exact Or.inl rfl
  · refine Or.inr ⟨hh, ?_, hmem⟩
    rw [h]

theorem preempt_none (s : Sched) (hr : s.running_task = none) : preemptPhase s = s := by
  rcases preempt_cases s with h | ⟨r, hh, hrun, -, -⟩
  · exact h
  · rw [hr] at hrun
    cases hrun

theorem preempt_rm_pos (s : Sched) (r h : TaskId) (halg : s.algorithm = "RM")
    (hr : s.running_task = some r) (hmin : pyMin (rmKey s) s.ready_queue = some h)
    (hlt : rmKey s h < rmKey s r) :
    preemptPhase s =
      { (if r ∈ s.ready_queue then s
         else { s with ready_queue := s.ready_queue ++ [r] }) with
          running_task := some h } := by
  simp only [preemptPhase, if_pos halg, hr, hmin, if_pos hlt]

theorem preempt_rm_neg (s : Sched) (r h : TaskId) (halg : s.algorithm = "RM")
    (hr : s.running_task = some r) (hmin : pyMin (rmKey s) s.ready_queue = some h)
    (hnlt : ¬ rmKey s h < rmKey s r) : preemptPhase s = s := by
  simp only [preemptPhase, if_pos halg, hr, hmin, if_neg hnlt]

theorem preempt_rm_empty (s : Sched) (r : TaskId) (halg : s.algorithm = "RM")
    (hr : s.running_task = some r) (hq : s.ready_queue = []) : preemptPhase s = s := by
  simp only [preemptPhase, if_pos halg, hr, hq, pyMin]

theorem preempt_edf_pos (s : Sched) (r h : TaskId) (halg : s.algorithm = "EDF")
    (hr : s.running_task = some r) (hmin : pyMin (edfKey s) s.ready_queue = some h)
    (hlt : edfKey s h < edfKey s r) :
    preemptPhase s =
      { (if r ∈ s.ready_queue then s
         else { s with ready_queue := s.ready_queue ++ [r] }) with
          running_task := some h } := by
  have hne : ¬ s.algorithm = "RM" := by rw [halg]; decide
  simp only [preemptPhase, if_neg hne, if_pos halg, hr, hmin, if_pos hlt]

theorem preempt_edf_neg (s : Sched) (r h : TaskId) (halg : s.algorithm = "EDF")
    (hr : s.running_task = some r) (hmin : pyMin (edfKey s) s.ready_queue = some h)
    (hnlt : ¬ edfKey s h < edfKey s r) : preemptPhase s = s := by
  have hne : ¬ s.algorithm = "RM" := by rw [halg]; decide
  simp only [preemptPhase, if_neg hne, if_pos halg, hr, hmin, if_neg hnlt]

theorem preempt_edf_empty (s : Sched) (r : TaskId) (halg : s.algorithm = "EDF")
    (hr : s.running_task = some r) (hq : s.ready_queue = []) : preemptPhase s = s := by
  have hne : ¬ s.algorithm = "RM" := by rw [halg]; decide
  simp only [preemptPhase, if_neg hne, if_pos halg, hr, hq, pyMin]

/-! ### Lemmas for task selection -/

theorem selectTask_rm (s : Sched) (halg : s.algorithm = "RM") :
    selectTask s = Except.ok (pyMin (rmKey s) s.ready_queue) := by
  unfold selectTask
  cases hql : s.ready_queue with
  | nil => rfl
  | cons x xs =>
    rw [if_neg (show ¬ ((x :: xs : List TaskId).isEmpty = true) from
      fun hf => Bool.false_ne_true hf), if_pos halg]

theorem selectTask_edf (s : Sched) (halg : s.algorithm = "EDF") :
    selectTask s = Except.ok (pyMin (edfKey s) s.ready_queue) := by
  have hne : ¬ s.algorithm = "RM" := by rw [halg]; decide
  unfold selectTask
  cases hql : s.ready_queue with
  | nil => rfl
  | cons x xs =>
    rw [if_neg (show ¬ ((x :: xs : List TaskId).isEmpty = true) from
      fun hf => Bool.false_ne_true hf), if_neg hne, if_pos halg]

theorem selectPhase_some (s : Sched) (r : TaskId) (hr : s.running_task = some r) :
    selectPhase s = Except.ok s := by
  unfold selectPhase
  rw [hr]

theorem selectPhase_none_rm (s : Sched) (hr : s.running_task = none)
    (halg : s.algorithm = "RM") :
    selectPhase s = Except.ok { s with running_task := pyMin (rmKey s) s.ready_queue } := by
  unfold selectPhase
  rw [hr, selectTask_rm s halg]

theorem selectPhase_none_edf (s : Sched) (hr : s.running_task = none)
    (halg : s.algorithm = "EDF") :
    selectPhase s = Except.ok { s with running_task := pyMin (edfKey s) s.ready_queue } := by
  unfold selectPhase
  rw [hr, selectTask_edf s halg]

theorem selectPhase_ok (s : Sched) (halg : s.algorithm = "RM" ∨ s.algorithm = "EDF") :
    ∃ s1, selectPhase s = Except.ok s1 ∧ s1.store = s.store ∧
      s1.ready_queue = s.ready_queue ∧ s1.tasks = s.tasks ∧
      s1.current_tick = s.current_tick ∧ s1.algorithm = s.algorithm ∧
      s1.execution_history = s.execution_history ∧
      (s1.running_task = s.running_task ∨
        s.running_task = none ∧ ∀ i, s1.running_task = some i → i ∈ s.ready_queue) := by
  cases hr : s.running_task with
  | some r =>
    exact ⟨s, selectPhase_some s r hr, rfl, rfl, rfl, rfl, rfl, rfl, Or.inl hr⟩
  | none =>
    rcases halg with halg | halg
    · refine ⟨{ s with running_task := pyMin (rmKey s) s.ready_queue },
        selectPhase_none_rm s hr halg, rfl, rfl, rfl, rfl, rfl, rfl, Or.inr ⟨rfl, ?_⟩⟩
      intro i hi
      exact pyMin_mem _ _ _ hi
    · refine ⟨{ s with running_task := pyMin (edfKey s) s.ready_queue },
        selectPhase_none_edf s hr halg, rfl, rfl, rfl, rfl, rfl, rfl, Or.inr ⟨rfl, ?_⟩⟩
      intro i hi
      exact pyMin_mem _ _ _ hi

/-! ### Lemmas for the execution phase -/

theorem getT_setT_misses (s : Sched) (r : TaskId) (t' : Task)
    (hmiss : t'.deadline_misses = (getT s r).deadline_misses) (i : TaskId) :
    (getT (setT s r t') i).deadline_misses = (getT s i).deadline_misses := by
  by_cases hir : i = r
  · subst hir
    by_cases hlen : i < s.store.length
    · show ((s.store.set i t').getD i dummyTask).deadline_misses = _
      rw [getD_set_self _ _ _ _ hlen, hmiss]
    · show ((s.store.set i t').getD i dummyTask).deadline_misses = _
      rw [set_eq_of_le _ _ _ (Nat.le_of_not_lt hlen)]
      rfl
  · show ((s.store.set r t').getD i dummyTask).deadline_misses = _
    rw [getD_set_ne _ _ _ _ _ hir]
    rfl

theorem runPhase_misses (s : Sched) (i : TaskId) :
    (getT (runPhase s).1 i).deadline_misses = (getT s i).deadline_misses := by
  cases hr : s.running_task with
  | none =>
    simp only [runPhase, hr]
    rfl
  | some r =>
    have key :
        (getT (setT s r
          { getT s r with remaining_time := (getT s r).remaining_time - 1 }) i).deadline_misses =
          (getT s i).deadline_misses :=
      getT_setT_misses s r
        { getT s r with remaining_time := (getT s r).remaining_time - 1 } rfl i
    simp only [runPhase, hr]
    split
    · split <;> exact key
    · exact key

theorem executeTask_misses (s : Sched) (halg : s.algorithm = "RM" ∨ s.algorithm = "EDF") :
    ∀ s' nm, executeTask s = Except.ok (s', nm) →
      ∀ i, (getT s' i).deadline_misses = (getT s i).deadline_misses := by
  intro s' nm hex i
  have halg1 : (preemptPhase s).algorithm = "RM" ∨ (preemptPhase s).algorithm = "EDF" := by
    rw [preempt_algorithm]; exact halg
  obtain ⟨s1, hsel, hstore, -, -, -, -, -, -⟩ := selectPhase_ok (preemptPhase s) halg1
  unfold executeTask at hex
  rw [hsel] at hex
  have heq : runPhase s1 = (s', nm) := Except.ok.inj hex
  have hs' : s' = (runPhase s1).1 := by rw [heq]
  have h2 : getT s1 i = getT (preemptPhase s) i := by
    show s1.store.getD i dummyTask = _
    rw [hstore]
    rfl
  rw [hs', runPhase_misses s1 i, h2, preempt_getT]

theorem executeTask_ok (s : Sched) (halg : s.algorithm = "RM" ∨ s.algorithm = "EDF") :
    ∃ p, executeTask s = Except.ok p := by
  have halg1 : (preemptPhase s).algorithm = "RM" ∨ (preemptPhase s).algorithm = "EDF" := by
    rw [preempt_algorithm]; exact halg
  obtain ⟨s1, hsel, -, -, -, -, -, -, -⟩ := selectPhase_ok (preemptPhase s) halg1
  refine ⟨runPhase s1, ?_⟩
  unfold executeTask
  rw [hsel]

theorem checkDeadlines_algorithm (s : Sched) : (checkDeadlines s).algorithm = s.algorithm :=
  chkFold_algorithm (taskIds s) s

theorem releasePass_algorithm (s : Sched) : (releasePass s).algorithm = s.algorithm :=
  relFold_algorithm (taskIds s) s

theorem tickStep_ok (s : Sched) (halg : s.algorithm = "RM" ∨ s.algorithm = "EDF") :
    ∃ s', tickStep s = Except.ok s' := by
  have halg2 : (checkDeadlines (releasePass s)).algorithm = "RM" ∨
      (checkDeadlines (releasePass s)).algorithm = "EDF" := by
    rw [checkDeadlines_algorithm, releasePass_algorithm]; exact halg
  obtain ⟨⟨s1, nm⟩, hp⟩ := executeTask_ok (checkDeadlines (releasePass s)) halg2
  refine ⟨{ ganttUpdate s1 nm with
    current_tick := (ganttUpdate s1 nm).current_tick + 1 }, ?_⟩
  unfold tickStep
  rw [hp]

theorem lookup_dictSet (m : List (String × TaskId)) (n : String) (i : TaskId) :
    lookupName (dictSet m n i) n = some i := by
  induction m with
  | nil =>
    show (if n = n then some i else lookupName [] n) = some i
    rw [if_pos rfl]
  | cons e rest ih =>
    obtain ⟨a, b⟩ := e
    by_cases hab : a = n
    · rw [show dictSet ((a, b) :: rest) n i = (n, i) :: rest from by
        simp [dictSet, hab]]
      show (if n = n then some i else lookupName rest n) = some i
      rw [if_pos rfl]
    · rw [show dictSet ((a, b) :: rest) n i = (a, b) :: dictSet rest n i from by
        simp [dictSet, hab]]
      show (if a = n then some b else lookupName (dictSet rest n i) n) = some i
      rw [if_neg hab]
      exact ih

theorem selectTask_congr (s s' : Sched) (halg : s'.algorithm = s.algorithm)
    (hq : s'.ready_queue = s.ready_queue)
    (hk : ∀ j ∈ s.ready_queue, getT s' j = getT s j) :
    selectTask s' = selectTask s := by
  have hrm : ∀ j ∈ s.ready_queue, rmKey s' j = rmKey s j := by
    intro j hj
    unfold rmKey
    rw [hk j hj]
  have hedf : ∀ j ∈ s.ready_queue, edfKey s' j = edfKey s j := by
    intro j hj
    unfold edfKey
    rw [hk j hj]
  unfold selectTask
  rw [halg, hq]
  split
  · rfl
  · split
    · rw [pyMin_congr (rmKey s') (rmKey s) s.ready_queue hrm]
    · split
      · rw [pyMin_congr (edfKey s') (edfKey s) s.ready_queue hedf]
      · rfl

theorem runPhase_idle (s : Sched) (hrun : s.running_task = none) :
    runPhase s = ({ s with execution_history := s.execution_history ++ ["idle"] }, "idle") := by
  simp only [runPhase, hrun]

theorem runPhase_spec (s : Sched) (i : TaskId) (hrun : s.running_task = some i)
    (hlen : i < s.store.length) (hnodup : s.ready_queue.Nodup) :
    (runPhase s).2 = (getT s i).name ∧
      (runPhase s).1.store = s.store.set i
        { getT s i with remaining_time := (getT s i).remaining_time - 1 } ∧
      (runPhase s).1.execution_history = s.execution_history ++ [(getT s i).name] ∧
      ((getT s i).remaining_time - 1 ≤ 0 →
        i ∉ (runPhase s).1.ready_queue ∧ (runPhase s).1.running_task = none) ∧
      ((getT s i).remaining_time - 1 > 0 →
        (runPhase s).1.running_task = some i ∧
          (runPhase s).1.ready_queue = s.ready_queue) := by
  have hget : getT (setT s i
      { getT s i with remaining_time := (getT s i).remaining_time - 1 }) i =
      { getT s i with remaining_time := (getT s i).remaining_time - 1 } := by
    show (s.store.set i _).getD i dummyTask = _
    exact getD_set_self _ _ _ _ hlen
  refine ⟨?_, ?_, ?_, ?_, ?_⟩
  · simp only [runPhase, hrun]
  · simp only [runPhase, hrun]
    split
    · split <;> rfl
    · rfl
  · simp only [runPhase, hrun]
    split
    · split <;> rfl
    · rfl
  · intro hle
    have hcond : (getT (setT s i
        { getT s i with remaining_time := (getT s i).remaining_time - 1 }) i).remaining_time ≤ 0 := by
      rw [hget]; exact hle
    constructor
    · simp only [runPhase, hrun, if_pos hcond]
      split
      · next hmem => exact not_mem_removeFirst _ _ hnodup
      · next hmem => exact hmem
    · simp only [runPhase, hrun, if_pos hcond]
  · intro hgt
    have hcond : ¬ (getT (setT s i
        { getT s i with remaining_time := (getT s i).remaining_time - 1 }) i).remaining_time ≤ 0 := by
      rw [hget]; exact not_le.2 hgt
    constructor
    · simp only [runPhase, hrun, if_neg hcond]
      exact hrun
    · simp only [runPhase, hrun, if_neg hcond]
      rfl

/-! ### Claim C1 -/

/-- Scheduler "RM" with one task `T1(period=1, execution_time=2)`, started and run
for one tick: at tick 1 the task is due again (`next_release = 1 ≤ 1`) while
unfinished (`remaining_time = 1 > 0`). -/
def c1s0 : Sched :=
  Sched.start (add_task (initScheduler "RM") (mkTask "T1" 1 2 none))

/-- State of `c1s0` at the start of tick 1. -/
def c1s1 : Sched := afterTicks 1 c1s0

/-- C1 is false on the code: at tick 1 the task `T1` satisfies
`next_release ≤ current_tick` and has `remaining_time > 0`, yet the release pass
does not call `release` on it (its instance counter stays 1) and records no
deadline miss, because `_release_tasks` additionally requires
`remaining_time == 0`. -/
theorem C1_counterexample :
    okRun (runTicks 1 c1s0) = true ∧
      (getT c1s1 0).next_release ≤ c1s1.current_tick ∧
      (getT c1s1 0).remaining_time > 0 ∧
      (getT c1s1 0).inst = 1 ∧
      (getT (releasePass c1s1) 0).inst = 1 ∧
      (getT (releasePass c1s1) 0).deadline_misses = [] := by
  decide

/-- C1 (amended): at every tick, every task that is due
(`next_release ≤ current_tick`) AND finished (`remaining_time = 0`) has
`release(current_tick)` called on it and belongs to `ready_queue` afterwards; a
due task whose instance is unfinished is left completely unchanged by the
release pass, so the overrun branch of `Task.release` never fires from the loop
and the release pass never changes any task's `deadline_misses`. -/
theorem C1_release_amended (s : Sched) (hnd : (taskIds s).Nodup) (i : TaskId)
    (hi : i ∈ taskIds s) (hlen : i < s.store.length) :
    ((getT s i).next_release ≤ s.current_tick ∧ (getT s i).remaining_time = 0 →
        getT (releasePass s) i = Task.release (getT s i) s.current_tick ∧
          i ∈ (releasePass s).ready_queue) ∧
      (¬ ((getT s i).next_release ≤ s.current_tick ∧ (getT s i).remaining_time = 0) →
        getT (releasePass s) i = getT s i) ∧
      (getT (releasePass s) i).deadline_misses = (getT s i).deadline_misses := by
  have h := relFold_spec (taskIds s) s i hnd hi hlen
  have hm := relFold_misses (taskIds s) s i
  refine ⟨?_, ?_, hm⟩
  · intro hg
    have h1 := h.1
    rw [if_pos (show relGuard s i from hg)] at h1
    exact ⟨h1, h.2 hg⟩
  · intro hg
    have h1 := h.1
    rw [if_neg (show ¬ relGuard s i from hg)] at h1
    exact h1

/-- Two fresh tasks, both due at tick 0. -/
def c1w : Sched :=
  add_task (add_task (initScheduler "RM") (mkTask "A" 2 1 none)) (mkTask "B" 3 1 none)

/-- Witness for C1_release_amended at a concrete state: task 0 of `c1w` is due
and finished, and the release pass releases it and queues it. -/
theorem C1_release_amended_witness :
    getT (releasePass c1w) 0 = Task.release (getT c1w 0) c1w.current_tick ∧
      0 ∈ (releasePass c1w).ready_queue := by
  have h := C1_release_amended c1w (by decide) 0 (by decide) (by decide)
  exact h.1 (by decide)

/-! ### Claim C2 -/

/-- Scheduler constructed with the invalid algorithm string "XY", one task
added, started. -/
def c2s0 : Sched :=
  Sched.start (add_task (initScheduler "XY") (mkTask "T1" 2 1 none))

/-- C2 is false on the code: constructing a scheduler with an algorithm other
than RM or EDF is not rejected (the constructor stores the string verbatim),
and the very first tick of the loop raises ValueError from the selection
pass. -/
theorem C2_counterexample :
    (initScheduler "XY").algorithm = "XY" ∧
      (initScheduler "XY").is_running = false ∧
      runTicks 1 c2s0 = Except.error "Invalid algorithm: use RM or EDF" :=
  ⟨rfl, rfl, rfl⟩

/-- C2 (amended): construction accepts any algorithm string without
validation, and for the two recognized algorithms RM and EDF no tick of the
loop ever raises; an unrecognized algorithm raises from `_select_task`
mid-loop, not at construction. -/
theorem C2_amended :
    (∀ a : String, (initScheduler a).algorithm = a) ∧
      (∀ s : Sched, s.algorithm = "RM" ∨ s.algorithm = "EDF" →
        ∃ s', tickStep s = Except.ok s') :=
  ⟨fun _ => rfl, fun s halg => tickStep_ok s halg⟩

/-- Same configuration as `c2s0` but with the valid algorithm RM. -/
def c2w : Sched :=
  Sched.start (add_task (initScheduler "RM") (mkTask "T1" 2 1 none))

/-- Witness for C2_amended: a tick of an RM scheduler completes without
raising. -/
theorem C2_amended_witness : okRun (tickStep c2w) = true := by
  obtain ⟨s', hs⟩ := C2_amended.2 c2w (Or.inl rfl)
  rw [hs]
  rfl

/-! ### Claim C3 -/

/-- Task with non-positive period, execution time and deadline, as the caller
would construct it (Task.__init__ performs no validation). -/
def c3t : Task := mkTask "T1" 0 (-1) (some (-2))

/-- C3 is false on the code: `add_task` with period 0, execution_time -1 and
deadline -2 is not rejected — the call succeeds and mutates the engine state
(the task is stored in the tasks mapping and in the arena). -/
theorem C3_counterexample :
    c3t.period ≤ 0 ∧ c3t.execution_time ≤ 0 ∧ c3t.deadline ≤ 0 ∧
      (initScheduler "RM").tasks = [] ∧
      (add_task (initScheduler "RM") c3t).tasks = [("T1", 0)] ∧
      getT (add_task (initScheduler "RM") c3t) 0 = c3t := by
  decide

/-- C3 (amended): `add_task` performs no validation at all — for every state
and every task, whatever its period, execution_time and deadline, the call
stores the task object in the arena and maps the task's name to it. -/
theorem C3_amended (s : Sched) (t : Task) :
    (add_task s t).store = s.store ++ [t] ∧
      lookupName (add_task s t).tasks t.name = some s.store.length := by
  unfold add_task
  split
  · dsimp only
    split <;> exact ⟨rfl, lookup_dictSet s.tasks t.name s.store.length⟩
  · exact ⟨rfl, lookup_dictSet s.tasks t.name s.store.length⟩

/-! ### Claim C4 -/

/-- Scheduler "RM" with A(period=6, execution=1), B(period=6, execution=3),
C(period=2, execution=1), in that insertion order, started. -/
def c4s0 : Sched :=
  Sched.start (add_task (add_task (add_task (initScheduler "RM")
    (mkTask "A" 6 1 none)) (mkTask "B" 6 3 none)) (mkTask "C" 2 1 none))

/-- Selection-pass state of tick 1 of the `c4s0` run. -/
def c4p1 : Sched := preExecState (afterTicks 1 c4s0)

/-- Selection-pass state of tick 7 of the `c4s0` run. -/
def c4p7 : Sched := preExecState (afterTicks 7 c4s0)

/-- C4's tie-break clause is false on the code: in the `c4s0` run, tasks A
(id 0) and B (id 1) tie on period at tick 1 and again at tick 7, both ready
and no task running at either selection; at tick 1 the tie goes to A, at
tick 7 to B.  The winner of a tie is whichever task is earlier in the current
`ready_queue`, and that order is not a fixed total order over task identity:
it changes over the run as tasks are removed and re-appended. -/
theorem C4_counterexample :
    okRun (runTicks 8 c4s0) = true ∧
      (afterTicks 8 c4s0).execution_history =
        ["C", "A", "C", "B", "C", "B", "C", "B"] ∧
      (getT c4p1 0).name = "A" ∧ (getT c4p1 1).name = "B" ∧
      c4p1.running_task = none ∧
      0 ∈ c4p1.ready_queue ∧ 1 ∈ c4p1.ready_queue ∧
      rmKey c4p1 0 = rmKey c4p1 1 ∧
      selectTask c4p1 = Except.ok (some 0) ∧
      c4p7.running_task = none ∧
      0 ∈ c4p7.ready_queue ∧ 1 ∈ c4p7.ready_queue ∧
      (getT c4p7 0).remaining_time > 0 ∧ (getT c4p7 1).remaining_time > 0 ∧
      rmKey c4p7 0 = rmKey c4p7 1 ∧
      selectTask c4p7 = Except.ok (some 1) := by
  refine ⟨rfl, by decide, by decide, by decide, by decide, by decide, by decide,
    by decide, rfl, by decide, by decide, by decide, by decide, by decide,
    by decide, rfl⟩

/-- C4 (amended): with a non-empty ready queue, the selection pass returns a
task whose priority key (period for RM, release_time + deadline for EDF) is
minimal over the ready queue, and among the minimal tasks it returns the one
earliest in the current ready_queue order — an order that reflects append
history and is not fixed across the run. -/
theorem C4_amended (s : Sched) (hq : s.ready_queue ≠ []) :
    (s.algorithm = "RM" →
        ∃ i l1 l2, selectTask s = Except.ok (some i) ∧
          s.ready_queue = l1 ++ i :: l2 ∧
          (∀ j ∈ s.ready_queue, rmKey s i ≤ rmKey s j) ∧
          (∀ j ∈ l1, rmKey s i < rmKey s j)) ∧
      (s.algorithm = "EDF" →
        ∃ i l1 l2, selectTask s = Except.ok (some i) ∧
          s.ready_queue = l1 ++ i :: l2 ∧
          (∀ j ∈ s.ready_queue, edfKey s i ≤ edfKey s j) ∧
          (∀ j ∈ l1, edfKey s i < edfKey s j)) := by
  constructor
  · intro halg
    obtain ⟨i, hmin⟩ := pyMin_isSome (rmKey s) _ hq
    obtain ⟨l1, l2, heq, h1, -⟩ := pyMin_decomp _ _ _ hmin
    exact ⟨i, l1, l2, by rw [selectTask_rm s halg, hmin], heq, pyMin_le _ _ _ hmin, h1⟩
  · intro halg
    obtain ⟨i, hmin⟩ := pyMin_isSome (edfKey s) _ hq
    obtain ⟨l1, l2, heq, h1, -⟩ := pyMin_decomp _ _ _ hmin
    exact ⟨i, l1, l2, by rw [selectTask_edf s halg, hmin], heq, pyMin_le _ _ _ hmin, h1⟩

/-- Witness for C4_amended at the concrete state `c4p1`: the selected task is
id 0 and its period is minimal over the ready queue. -/
theorem C4_amended_witness :
    selectTask c4p1 = Except.ok (some 0) ∧ rmKey c4p1 0 ≤ rmKey c4p1 1 := by
  obtain ⟨i, l1, l2, hsel, -, hmin, -⟩ :=
    (C4_amended c4p1 (by decide)).1 (by rfl)
  have hi : some i = some 0 := by
    have hc : selectTask c4p1 = Except.ok (some 0) := by rfl
    rw [hsel] at hc
    exact Except.ok.inj hc
  have hi0 : i = 0 := Option.some_inj.1 hi
  subst hi0
  exact ⟨hsel, hmin 1 (by decide)⟩

/-! ### Claim C5 -/

/-- C5: whenever a task is running and a strictly higher-priority task
(strictly smaller period under RM, strictly smaller release_time + deadline
under EDF) is in the ready queue, the preemption check replaces the running
task by a minimal-key ready task of strictly smaller key, keeps the preempted
task in the ready queue, and leaves every task object — in particular the
preempted task's remaining_time — untouched; with no strictly higher-priority
ready task the pass changes nothing. -/
theorem C5_preemption (s : Sched) (r : TaskId) (hr : s.running_task = some r) :
    (preemptPhase s).store = s.store ∧
      (s.algorithm = "RM" →
        ((∃ j ∈ s.ready_queue, rmKey s j < rmKey s r) →
            ∃ h, (preemptPhase s).running_task = some h ∧ h ∈ s.ready_queue ∧
              rmKey s h < rmKey s r ∧ (∀ j ∈ s.ready_queue, rmKey s h ≤ rmKey s j) ∧
              r ∈ (preemptPhase s).ready_queue ∧
              getT (preemptPhase s) r = getT s r) ∧
          (¬ (∃ j ∈ s.ready_queue, rmKey s j < rmKey s r) → preemptPhase s = s)) ∧
      (s.algorithm = "EDF" →
        ((∃ j ∈ s.ready_queue, edfKey s j < edfKey s r) →
            ∃ h, (preemptPhase s).running_task = some h ∧ h ∈ s.ready_queue ∧
              edfKey s h < edfKey s r ∧
              (∀ j ∈ s.ready_queue, edfKey s h ≤ edfKey s j) ∧
              r ∈ (preemptPhase s).ready_queue ∧
              getT (preemptPhase s) r = getT s r) ∧
          (¬ (∃ j ∈ s.ready_queue, edfKey s j < edfKey s r) → preemptPhase s = s)) := by
  refine ⟨preempt_store s, ?_, ?_⟩
  · intro halg
    constructor
    · rintro ⟨j, hj, hjlt⟩
      have hq : s.ready_queue ≠ [] := by
        intro hnil
        rw [hnil] at hj
        cases hj
      obtain ⟨h, hmin⟩ := pyMin_isSome (rmKey s) _ hq
      have hhle := pyMin_le _ _ _ hmin
      have hhlt : rmKey s h < rmKey s r := lt_of_le_of_lt (hhle j hj) hjlt
      rw [preempt_rm_pos s r h halg hr hmin hhlt]
      refine ⟨h, rfl, pyMin_mem _ _ _ hmin, hhlt, hhle, ?_, ?_⟩
      · show r ∈ (if r ∈ s.ready_queue then s
          else { s with ready_queue := s.ready_queue ++ [r] }).ready_queue
        split
        · next hmem => exact hmem
        · exact List.mem_append_right _ (List.mem_cons_self r [])
      · show (if r ∈ s.ready_queue then s
          else { s with ready_queue := s.ready_queue ++ [r] }).store.getD r dummyTask = _
        split <;> rfl
    · intro hnone
      cases hql : s.ready_queue with
      | nil => exact preempt_rm_empty s r halg hr hql
      | cons x xs =>
        have hq : s.ready_queue ≠ [] := by rw [hql]; intro h; cases h
        obtain ⟨h, hmin⟩ := pyMin_isSome (rmKey s) _ hq
        have hnlt : ¬ rmKey s h < rmKey s r := fun hlt =>
          hnone ⟨h, pyMin_mem _ _ _ hmin, hlt⟩
        exact preempt_rm_neg s r h halg hr hmin hnlt
  · intro halg
    constructor
    · rintro ⟨j, hj, hjlt⟩
      have hq : s.ready_queue ≠ [] := by
        intro hnil
        rw [hnil] at hj
        cases hj
      obtain ⟨h, hmin⟩ := pyMin_isSome (edfKey s) _ hq
      have hhle := pyMin_le _ _ _ hmin
      have hhlt : edfKey s h < edfKey s r := lt_of_le_of_lt (hhle j hj) hjlt
      rw [preempt_edf_pos s r h halg hr hmin hhlt]
      refine ⟨h, rfl, pyMin_mem _ _ _ hmin, hhlt, hhle, ?_, ?_⟩
      · show r ∈ (if r ∈ s.ready_queue then s
          else { s with ready_queue := s.ready_queue ++ [r] }).ready_queue
        split
        · next hmem => exact hmem
        · exact List.mem_append_right _ (List.mem_cons_self r [])
      · show (if r ∈ s.ready_queue then s
          else { s with ready_queue := s.ready_queue ++ [r] }).store.getD r dummyTask = _
        split <;> rfl
    · intro hnone
      cases hql : s.ready_queue with
      | nil => exact preempt_edf_empty s r halg hr hql
      | cons x xs =>
        have hq : s.ready_queue ≠ [] := by rw [hql]; intro h; cases h
        obtain ⟨h, hmin⟩ := pyMin_isSome (edfKey s) _ hq
        have hnlt : ¬ edfKey s h < edfKey s r := fun hlt =>
          hnone ⟨h, pyMin_mem _ _ _ hmin, hlt⟩
        exact preempt_edf_neg s r h halg hr hmin hnlt

/-- RM scheduler with task A (id 0, period 2) ready while task B (id 1,
period 6) is running. -/
def c5w : Sched :=
  { algorithm := "RM"
    store := [mkTask "A" 2 1 none, mkTask "B" 6 1 none]
    tasks := [("A", 0), ("B", 1)]
    ready_queue := [0, 1]
    running_task := some 1
    current_tick := 0
    is_running := true
    execution_history := []
    gantt_chart_data := [("A", []), ("B", [])]
    task_display_order := ["A", "B"]
    event_log := [] }

/-- Witness for C5_preemption: in `c5w` the shorter-period ready task 0
preempts the running task 1, which stays in the ready queue with its task
object (hence remaining_time) unchanged. -/
theorem C5_preemption_witness :
    (preemptPhase c5w).running_task = some 0 ∧ 0 ∈ c5w.ready_queue ∧
      rmKey c5w 0 < rmKey c5w 1 ∧ 1 ∈ (preemptPhase c5w).ready_queue ∧
      getT (preemptPhase c5w) 1 = getT c5w 1 := by
  obtain ⟨-, hrm, -⟩ := C5_preemption c5w 1 rfl
  obtain ⟨h, h1, h2, h3, -, h5, h6⟩ := (hrm rfl).1 ⟨0, by decide, by decide⟩
  have hc : some h = some 0 := by
    have hcomp : (preemptPhase c5w).running_task = some 0 := by rfl
    rw [h1] at hcomp
    exact hcomp
  have h0 : h = 0 := Option.some_inj.1 hc
  subst h0
  exact ⟨h1, h2, h3, h5, h6⟩

/-! ### Claim C6 -/

/-- C6: deadline misses are recorded exactly by the deadline-check pass and
exactly once per instance.  In one tick: the release pass never changes any
task's deadline_misses (its overrun path cannot fire, claim C1); the check
pass appends the task's current instance to its deadline_misses exactly when
the task is active (remaining_time > 0, instance > 0), its absolute deadline
release_time + deadline lies strictly before current_tick, and that instance
is not yet recorded — so a recorded instance is never duplicated, and Nodup of
deadline_misses is preserved; the execution pass never changes any
deadline_misses. -/
theorem C6_miss_recording (s : Sched) (hnd : (taskIds s).Nodup)
    (halg : s.algorithm = "RM" ∨ s.algorithm = "EDF") :
    (∀ i, (getT (releasePass s) i).deadline_misses = (getT s i).deadline_misses) ∧
      (∀ i, i ∈ taskIds s →
        (getT (checkDeadlines s) i).deadline_misses =
          (getT s i).deadline_misses ++
            (if chkGuard s i then [(getT s i).inst] else [])) ∧
      (∀ i, i ∉ taskIds s → getT (checkDeadlines s) i = getT s i) ∧
      (∀ i, ((getT s i).deadline_misses).Nodup →
        ((getT (checkDeadlines s) i).deadline_misses).Nodup) ∧
      (∀ s' nm, executeTask s = Except.ok (s', nm) →
        ∀ i, (getT s' i).deadline_misses = (getT s i).deadline_misses) := by
  have hchk : ∀ i, i ∈ taskIds s →
      (getT (checkDeadlines s) i).deadline_misses =
        (getT s i).deadline_misses ++
          (if chkGuard s i then [(getT s i).inst] else []) := by
    intro i hi
    have h := chkFold_spec (taskIds s) s i hnd hi
    show (getT ((taskIds s).foldl checkStep s) i).deadline_misses = _
    rw [h]
    by_cases hg : chkGuard s i
    · rw [if_pos hg, if_pos hg]
    · rw [if_neg hg, if_neg hg, List.append_nil]
  refine ⟨relFold_misses (taskIds s) s, hchk, chkFold_getT_not_mem (taskIds s) s, ?_,
    executeTask_misses s halg⟩
  intro i hnod
  by_cases hi : i ∈ taskIds s
  · rw [hchk i hi]
    by_cases hg : chkGuard s i
    · rw [if_pos hg]
      exact nodup_snoc _ _ hnod hg.2.2.2
    · rw [if_neg hg, List.append_nil]
      exact hnod
  · rw [show getT (checkDeadlines s) i = getT s i from
      chkFold_getT_not_mem (taskIds s) s i hi]
    exact hnod

/-- RM scheduler with one task T(period=5, execution=3, deadline=1) run for
two ticks: at tick 2 its first instance is past its absolute deadline 1 and
still unfinished, with no miss recorded yet. -/
def c6w : Sched :=
  afterTicks 2 (Sched.start (add_task (initScheduler "RM") (mkTask "T" 5 3 (some 1))))

/-- Witness for C6_miss_recording: at `c6w` the check pass records exactly one
miss, for the current instance of task 0. -/
theorem C6_miss_recording_witness :
    (getT (checkDeadlines c6w) 0).deadline_misses =
      (getT c6w 0).deadline_misses ++ [(getT c6w 0).inst] := by
  have h := (C6_miss_recording c6w (by decide) (Or.inl rfl)).2.1 0 (by decide)
  rw [h, if_pos (by decide)]

/-! ### Claim C7 -/

/-- C7: in the execution pass of every tick (with a recognized algorithm and a
well-formed queue) exactly one of two things happens: some task object i has
its remaining_time decremented by exactly 1 — the store is updated at i alone —
and its name is appended to execution_history, and if the decremented
remaining_time reaches (or falls below) 0 the task is removed from ready_queue
and running_task is cleared in the same pass, while a still-positive remainder
keeps it running; or no task object changes at all and the idle marker is
appended to execution_history. -/
theorem C7_execution (s : Sched) (halg : s.algorithm = "RM" ∨ s.algorithm = "EDF")
    (hnodup : s.ready_queue.Nodup)
    (hqb : ∀ j ∈ s.ready_queue, j < s.store.length)
    (hrb : ∀ r, s.running_task = some r → r < s.store.length) :
    ∃ s' nm, executeTask s = Except.ok (s', nm) ∧
      ((nm = "idle" ∧ s'.store = s.store ∧
          s'.execution_history = s.execution_history ++ ["idle"]) ∨
        (∃ i, i < s.store.length ∧ nm = (getT s i).name ∧
          s'.store = s.store.set i
            { getT s i with remaining_time := (getT s i).remaining_time - 1 } ∧
          s'.execution_history = s.execution_history ++ [nm] ∧
          ((getT s i).remaining_time - 1 ≤ 0 →
            i ∉ s'.ready_queue ∧ s'.running_task = none) ∧
          ((getT s i).remaining_time - 1 > 0 → s'.running_task = some i))) := by
  have halg1 : (preemptPhase s).algorithm = "RM" ∨ (preemptPhase s).algorithm = "EDF" := by
    rw [preempt_algorithm]; exact halg
  obtain ⟨s1, hsel, hstore, hqueue, -, -, -, hhist, hrunc⟩ :=
    selectPhase_ok (preemptPhase s) halg1
  have hex : executeTask s = Except.ok (runPhase s1) := by
    unfold executeTask
    rw [hsel]
  have hstore1 : s1.store = s.store := by rw [hstore, preempt_store]
  have hget1 : ∀ i, getT s1 i = getT s i := by
    intro i
    show s1.store.getD i dummyTask = _
    rw [hstore1]
    rfl
  have hhist1 : s1.execution_history = s.execution_history := by
    rw [hhist, preempt_history]
  have hnodup1 : s1.ready_queue.Nodup := by
    rw [hqueue]
    exact preempt_queue_nodup s hnodup
  cases hrun1 : s1.running_task with
  | none =>
    refine ⟨(runPhase s1).1, (runPhase s1).2, by rw [hex], Or.inl ?_⟩
    rw [runPhase_idle s1 hrun1]
    exact ⟨rfl, by rw [hstore1], by rw [hhist1]⟩
  | some i =>
    have hib : i < s.store.length := by
      rcases hrunc with hrc | ⟨hpnone, hmemf⟩
      · rcases preempt_running_cases s with hpc | ⟨h, hph, hpmem⟩
        · exact hrb i (by rw [← hpc, ← hrc, hrun1])
        · have : some i = some h := by rw [← hrun1, hrc, hph]
          have hih : i = h := Option.some_inj.1 this
          subst hih
          exact hqb i hpmem
      · have hmem := hmemf i hrun1
        exact preempt_queue_bounds s s.store.length hqb hrb i hmem
    have hib1 : i < s1.store.length := by rw [hstore1]; exact hib
    obtain ⟨hnm, hst, hhi, hdone, hkeep⟩ := runPhase_spec s1 i hrun1 hib1 hnodup1
    refine ⟨(runPhase s1).1, (runPhase s1).2, by rw [hex], Or.inr ⟨i, hib, ?_, ?_, ?_, ?_, ?_⟩⟩
    · rw [hnm, hget1]
    · rw [hst, hstore1, hget1]
    · rw [hhi, hhist1, hnm, hget1]
    · intro hle
      exact hdone (by rw [← hget1 i] at hle; exact hle)
    · intro hgt
      exact (hkeep (by rw [← hget1 i] at hgt; exact hgt)).1

/-- RM scheduler with one released task (id 0, remaining_time 1) ready, no
task running. -/
def c7w : Sched :=
  { algorithm := "RM"
    store := [Task.release (mkTask "A" 2 1 none) 0]
    tasks := [("A", 0)]
    ready_queue := [0]
    running_task := none
    current_tick := 0
    is_running := true
    execution_history := []
    gantt_chart_data := [("A", [])]
    task_display_order := ["A"]
    event_log := [] }

/-- Witness for C7_execution: the execution pass of `c7w` completes without
raising. -/
theorem C7_execution_witness :
    okRun (executeTask c7w) = true ∧ c7w.ready_queue.Nodup := by
  obtain ⟨s', nm, hex, -⟩ :=
    C7_execution c7w (Or.inl rfl) (by decide) (by decide) (by decide)
  refine ⟨?_, by decide⟩
  rw [hex]
  rfl

/-! ### Claim C9 -/

/-- C9: add_task with an already-present name replaces the mapping entry with
the new object (stored at a fresh arena index) and does nothing else: the
ready queue, the running reference, the event log, the display order, the
gantt rows and the execution history are untouched, every existing task object
is unchanged, and the selection pass still selects exactly as before — the old
object, if ready or running, keeps being scheduled. -/
theorem C9_overwrite (s : Sched) (t : Task) (oldId : TaskId)
    (hname : lookupName s.tasks t.name = some oldId)
    (hqb : ∀ j ∈ s.ready_queue, j < s.store.length) :
    (add_task s t).ready_queue = s.ready_queue ∧
      (add_task s t).running_task = s.running_task ∧
      (add_task s t).event_log = s.event_log ∧
      (add_task s t).task_display_order = s.task_display_order ∧
      (add_task s t).gantt_chart_data = s.gantt_chart_data ∧
      (add_task s t).execution_history = s.execution_history ∧
      (add_task s t).tasks = dictSet s.tasks t.name s.store.length ∧
      (add_task s t).store = s.store ++ [t] ∧
      (∀ i, i < s.store.length → getT (add_task s t) i = getT s i) ∧
      selectTask (add_task s t) = selectTask s := by
  have hcond : ¬ lookupName s.tasks t.name = none := by
    rw [hname]
    intro h
    cases h
  have hadd : add_task s t =
      { s with store := s.store ++ [t],
               tasks := dictSet s.tasks t.name s.store.length } := by
    unfold add_task
    rw [if_neg hcond]
  rw [hadd]
  have hget : ∀ i, i < s.store.length →
      getT { s with store := s.store ++ [t],
                    tasks := dictSet s.tasks t.name s.store.length } i = getT s i := by
    intro i hi
    show (s.store ++ [t]).getD i dummyTask = _
    exact getD_append_left _ _ _ _ hi
  refine ⟨rfl, rfl, rfl, rfl, rfl, rfl, rfl, rfl, hget, ?_⟩
  exact selectTask_congr s _ rfl rfl (fun j hj => hget j (hqb j hj))

/-- RM scheduler with T1(period=2, execution=2) after one tick: T1 is released,
running, and has one tick of work left. -/
def c9w : Sched :=
  afterTicks 1 (Sched.start (add_task (initScheduler "RM") (mkTask "T1" 2 2 none)))

/-- Replacement task reusing the name T1. -/
def c9t : Task := mkTask "T1" 3 1 none

/-- Witness for C9_overwrite: overwriting T1 in `c9w` leaves the ready queue,
the event log and the selection outcome unchanged. -/
theorem C9_overwrite_witness :
    (add_task c9w c9t).ready_queue = c9w.ready_queue ∧
      (add_task c9w c9t).event_log = c9w.event_log ∧
      selectTask (add_task c9w c9t) = selectTask c9w := by
  obtain ⟨h1, -, h3, -, -, -, -, -, -, h10⟩ :=
    C9_overwrite c9w c9t 0 (by decide) (by decide)
  exact ⟨h1, h3, h10⟩

/-! ### Claim C10 -/

/-- C10: start() on a non-running engine resets current_tick to 0 and raises
is_running, leaving the tasks mapping, the task arena (hence every task's
fields), the ready queue, the execution history, the event log and the display
data unchanged; start() on a running engine changes nothing. -/
theorem C10_start (s : Sched) :
    (Sched.start s).tasks = s.tasks ∧
      (Sched.start s).store = s.store ∧
      (Sched.start s).ready_queue = s.ready_queue ∧
      (Sched.start s).running_task = s.running_task ∧
      (Sched.start s).execution_history = s.execution_history ∧
      (Sched.start s).event_log = s.event_log ∧
      (Sched.start s).gantt_chart_data = s.gantt_chart_data ∧
      (Sched.start s).task_display_order = s.task_display_order ∧
      (s.is_running = false →
        (Sched.start s).current_tick = 0 ∧ (Sched.start s).is_running = true) ∧
      (s.is_running = true → Sched.start s = s) := by
  unfold Sched.start
  by_cases h : s.is_running = true
  · rw [if_pos h]
    refine ⟨rfl, rfl, rfl, rfl, rfl, rfl, rfl, rfl, ?_, fun _ => rfl⟩
    intro hf
    rw [hf] at h
    cases h
  · rw [if_neg h]
    refine ⟨rfl, rfl, rfl, rfl, rfl, rfl, rfl, rfl, fun _ => ⟨rfl, rfl⟩, ?_⟩
    intro ht
    exact absurd ht h

/-- A stopped engine after two ticks of a run (restart scenario). -/
def c10w : Sched :=
  Sched.stop (afterTicks 2 (Sched.start (add_task (initScheduler "RM")
    (mkTask "T1" 3 2 none))))

/-- Witness for C10_start: restarting the stopped engine `c10w` resets the
tick counter to 0 while keeping the ready queue and the execution history. -/
theorem C10_start_witness :
    c10w.is_running = false ∧ (Sched.start c10w).current_tick = 0 ∧
      (Sched.start c10w).execution_history = c10w.execution_history ∧
      (Sched.start c10w).ready_queue = c10w.ready_queue := by
  have h := C10_start c10w
  exact ⟨by decide, (h.2.2.2.2.2.2.2.2.1 (by decide)).1, h.2.2.2.2.1, h.2.2.1⟩

end TaskScheduler
